import Mathlib

/-!
Verification development for `populate.py`: a contact-list generation tool
that calls a generative model per (city, partner type) pair, validates and
deduplicates the returned records, accumulates them across retry attempts,
writes per-pair CSV files (skipping pairs whose file already exists), and
offers a merge mode that unions all per-pair files with deduplication.

The Python source is shallowly embedded below.  Strings are Lean `String`s,
but every character-level operation of the source (`strip`, `lower`,
`upper`, slicing, `split`, `re.sub`) is re-implemented over `String.data`
so that all definitions evaluate by kernel reduction.  Dicts coming from
the model are embedded as structures of `Option String` fields; CSV rows
read back from disk are structures of `String` fields (as produced by
`csv.DictReader`).  The OpenAI client is embedded as an oracle
`Nat → List RawContact` giving the raw `contacts` array of each attempt,
and the filesystem as an association list from paths to CSV contents.
-/

/-- Python `str.lower()` (ASCII, as used here). -/
def lowerStr (s : String) : String := ⟨s.data.map Char.toLower⟩

/-- Python `str.upper()` (ASCII, as used here). -/
def upperStr (s : String) : String := ⟨s.data.map Char.toUpper⟩

/-- Python `str.strip()` on a character list. -/
def trimList (l : List Char) : List Char :=
  ((l.dropWhile Char.isWhitespace).reverse.dropWhile Char.isWhitespace).reverse

/-- Python `str.strip()`. -/
def trimStr (s : String) : String := ⟨trimList s.data⟩

/-- Python slicing `s[:n]` for `n ≥ 0`. -/
def takeStr (s : String) (n : Nat) : String := ⟨s.data.take n⟩

/-- Python `(x or None)` for an optional string `x`: both a missing value
and the empty string collapse to `None`. -/
def pyOrNone (o : Option String) : Option String :=
  match o with
  | some s => if s = "" then none else some s
  | none => none

/-- Python `(x or "")` for an optional string `x`. -/
def pyOrEmpty (o : Option String) : String := o.getD ""

/-- A raw item of the model's `contacts` array (`dict` access via `get`). -/
structure RawContact where
  name : Option String
  email : Option String
  country : Option String
  language : Option String
  city : Option String
  instagram : Option String
  phone : Option String
  organization : Option String
  type : Option String
  notes : Option String
deriving DecidableEq

/-- A normalized contact record, as built by `enforce_and_trim`. -/
structure Contact where
  name : String
  email : Option String
  country : String
  language : String
  city : String
  instagram : Option String
  phone : Option String
  organization : Option String
  type : String
  notes : Option String
deriving DecidableEq

/-- The dedup key of `dedupe` / `run_for_city`:
`(r.get("email") or "").lower().strip() or ("ig:" + (r.get("instagram") or "").lower().strip())`. -/
def dedupKey (r : Contact) : String :=
  let e := trimStr (lowerStr (pyOrEmpty r.email))
  if e ≠ "" then e else "ig:" ++ trimStr (lowerStr (pyOrEmpty r.instagram))

/-- The shared seen-set filtering loop pattern
(`if key and key not in seen: seen.add(key); out.append(r)`), parameterized
by the key function; returns the survivors and the final seen set. -/
def filterSeenBy (key : α → String) : List String → List α → List α × List String
  | seen, [] => ([], seen)
  | seen, r :: rs =>
    let k := key r
    if k ≠ "" ∧ k ∉ seen then
      let p := filterSeenBy key (k :: seen) rs
      (r :: p.1, p.2)
    else
      filterSeenBy key seen rs

/-- `dedupe(rows)` from the source: first occurrence of each non-empty key wins. -/
def dedupe (rows : List Contact) : List Contact :=
  (filterSeenBy dedupKey [] rows).1

/-- `enforce_and_trim(rows, needed, iso3, lang2, city_name, partner_type)`:
trim the name, collapse empty optionals, inject the caller-supplied
country/language/city/type, drop records lacking both contact channels or a
name, dedupe, and truncate to `needed`. -/
def enforceAndTrim (rows : List RawContact) (needed : Nat)
    (iso3 lang2 cityName ptype : String) : List Contact :=
  let normalized := rows.filterMap (fun r =>
    let item : Contact := {
      name := trimStr (pyOrEmpty r.name)
      email := pyOrNone r.email
      country := iso3
      language := lang2
      city := cityName
      instagram := pyOrNone r.instagram
      phone := pyOrNone r.phone
      organization := pyOrNone r.organization
      type := ptype
      notes := pyOrNone r.notes }
    if item.email = none ∧ item.instagram = none then none
    else if item.name = "" then none
    else some item)
  (dedupe normalized).take needed

/-- The normalized batch produced by attempt `i` of the accumulation loop
(`enforce_and_trim(data.get("contacts", []), need*2, ...)`), with the
gateway embedded as the oracle `oracle`. -/
def attemptRows (oracle : Nat → List RawContact) (need : Nat)
    (iso3 lang2 cityName ptype : String) (i : Nat) : List Contact :=
  enforceAndTrim (oracle i) (need * 2) iso3 lang2 cityName ptype

/-- The accumulation loop of `run_for_city`
(`while len(collected) < need and attempts < 4`), structurally recursive on
the remaining attempt budget; `attempts = 4 - remaining`.  Returns the
collected records before final truncation, and the attempt count at exit. -/
def collectGo (oracle : Nat → List RawContact) (need : Nat)
    (iso3 lang2 cityName ptype : String) :
    Nat → List Contact → List String → List Contact × Nat
  | 0, collected, _ => (collected, 4)
  | rem + 1, collected, seen =>
    if collected.length < need then
      let rows := attemptRows oracle need iso3 lang2 cityName ptype (4 - (rem + 1))
      let p := filterSeenBy dedupKey seen rows
      collectGo oracle need iso3 lang2 cityName ptype rem (collected ++ p.1) p.2
    else
      (collected, 4 - (rem + 1))

/-- The running collection at loop exit, before `collected[:need]`. -/
def collectRaw (oracle : Nat → List RawContact) (need : Nat)
    (iso3 lang2 cityName ptype : String) : List Contact :=
  (collectGo oracle need iso3 lang2 cityName ptype 4 [] []).1

/-- The records `run_for_city` writes for one pair: the accumulation loop's
result truncated to `need`. -/
def collect (oracle : Nat → List RawContact) (need : Nat)
    (iso3 lang2 cityName ptype : String) : List Contact :=
  (collectRaw oracle need iso3 lang2 cityName ptype).take need

/-- Number of generation attempts the loop performed. -/
def attemptsUsed (oracle : Nat → List RawContact) (need : Nat)
    (iso3 lang2 cityName ptype : String) : Nat :=
  (collectGo oracle need iso3 lang2 cityName ptype 4 [] []).2

/-- Character class of `sanitize`'s regex `[^a-zA-Z0-9._-]`. -/
def goodChar (c : Char) : Bool := c.isAlphanum || c = '.' || c = '_' || c = '-'

/-- `re.sub(r"[^a-zA-Z0-9._-]+", "_", ·)`: each maximal run of bad
characters becomes a single underscore.  The flag records whether we are
inside a bad run. -/
def sanitizeAux : Bool → List Char → List Char
  | _, [] => []
  | inBad, c :: cs =>
    if goodChar c then c :: sanitizeAux false cs
    else if inBad then sanitizeAux true cs
    else '_' :: sanitizeAux true cs

/-- `sanitize(s)` from the source. -/
def sanitize (s : String) : String := ⟨sanitizeAux false (trimList s.data)⟩

/-- CSV column order (`CSV_HEADER`). -/
def CSV_HEADER : List String :=
  ["name", "email", "country", "language", "city", "instagram", "phone",
   "organization", "type", "notes"]

/-- One written CSV row: `{k: r.get(k, "") or "" for k in CSV_HEADER}`. -/
def csvRow (r : Contact) : List String :=
  [r.name, pyOrEmpty r.email, r.country, r.language, r.city,
   pyOrEmpty r.instagram, pyOrEmpty r.phone, pyOrEmpty r.organization,
   r.type, pyOrEmpty r.notes]

/-- The file content `write_csv` produces: header plus one row per record. -/
def renderCsv (rows : List Contact) : List (List String) :=
  CSV_HEADER :: rows.map csvRow

/-- The filesystem, embedded as an association list from paths to CSV
contents. -/
def FS : Type := List (String × List (List String))

/-- The canonical per-pair path
`os.path.join(out_root, sanitize(city_id), partner_type, "contacts.csv")`. -/
def outPath (outRoot cityId ptype : String) : String :=
  outRoot ++ "/" ++ sanitize cityId ++ "/" ++ ptype ++ "/contacts.csv"

/-- `file_exists(out_root, city_id, partner_type)` over the embedded
filesystem. -/
def fileExists (fs : FS) (p : String) : Bool :=
  fs.any (fun e => e.1 == p)

/-- Writing a file (mode `"w"`: overwrites any existing file at the path). -/
def setFile (fs : FS) (p : String) (content : List (List String)) : FS :=
  (p, content) :: fs.filter (fun e => !(e.1 == p))

/-- The body of `run_for_city`'s per-type iteration for one pair: skip when
the file exists, otherwise run the accumulation loop and write the CSV.
Also returns the number of generation calls performed. -/
def runPair (oracle : Nat → List RawContact) (fs : FS)
    (outRoot cityId ptype iso3 lang2 cityName : String) (perType : Nat) :
    FS × Nat :=
  if fileExists fs (outPath outRoot cityId ptype) then (fs, 0)
  else
    let collected := collect oracle perType iso3 lang2 cityName ptype
    (setFile fs (outPath outRoot cityId ptype) (renderCsv collected),
     attemptsUsed oracle perType iso3 lang2 cityName ptype)

/-- A city object of the cities list (`load_cities` is typed
`List[dict]`; the fields used are `id`, `country` and the nested
language). -/
structure CityObj where
  id : String
  country : String
  language : String
deriving DecidableEq

/-- Console output of the per-city loop of `main`. -/
inductive LogEntry
  | progress (id : String)
  | warn (id : String) (msg : String)
deriving DecidableEq

/-- The log entries produced for one city: the progress line, then — when
the city's processing raises — the `[warn]` line from the `except` block. -/
def cityLog (run : CityObj → Except String Unit) (c : CityObj) : List LogEntry :=
  match run c with
  | .ok _ => [LogEntry.progress c.id]
  | .error e => [LogEntry.progress c.id, LogEntry.warn c.id e]

/-- The per-city loop of `main`: each city in a `try`/`except` that logs and
continues. `run` abstracts `run_for_city` (anything raised inside the `try`). -/
def orchestrate (run : CityObj → Except String Unit) : List CityObj → List LogEntry
  | [] => []
  | c :: cs => cityLog run c ++ orchestrate run cs

/-- A CSV row as read back by `csv.DictReader` during merge. -/
structure MRow where
  name : String
  email : String
  country : String
  language : String
  city : String
  instagram : String
  phone : String
  organization : String
  type : String
  notes : String
deriving DecidableEq

/-- The merge-pass dedup key:
`email.lower().strip() or ("ig:" + instagram.lower().strip())`. -/
def mergeKey (r : MRow) : String :=
  let e := trimStr (lowerStr r.email)
  if e ≠ "" then e else "ig:" ++ trimStr (lowerStr r.instagram)

/-- The discovery-order walk of `merge_csvs`: each discovered file either
fails to read (`.error`, logged and skipped) or yields its rows, which are
filtered against the corpus-wide seen-key set. -/
def mergeGo : List (Except Unit (List MRow)) → List String → List MRow
  | [], _ => []
  | f :: fs, seen =>
    match f with
    | .error _ => mergeGo fs seen
    | .ok rows =>
      let p := filterSeenBy mergeKey seen rows
      p.1 ++ mergeGo fs p.2

/-- A merged output row (`{k: contact.get(k, "") or "" for k in CSV_HEADER}`). -/
def renderMRow (r : MRow) : List String :=
  [r.name, r.email, r.country, r.language, r.city, r.instagram, r.phone,
   r.organization, r.type, r.notes]

/-- `merge_csvs`: `none` means no output file was written (the
`if all_contacts:` guard failed); otherwise the written content. -/
def mergeCsvs (files : List (Except Unit (List MRow))) :
    Option (List (List String)) :=
  let contacts := mergeGo files []
  if contacts = [] then none
  else some (CSV_HEADER :: contacts.map renderMRow)

/-- The `--cities` file as `main` sees it: unreadable / not-JSON input (an
uncaught exception), a JSON value that is not an array (`sys.exit(1)`), or
a proper array of city objects. -/
inductive CitiesFile
  | unreadable
  | notArray
  | array (cs : List CityObj)

/-- `ISO3` lookup table. -/
def ISO3 : List (String × String) :=
  [("usa", "USA"), ("canada", "CAN"), ("mexico", "MEX"), ("brazil", "BRA"),
   ("argentina", "ARG"), ("peru", "PER"), ("colombia", "COL"), ("chile", "CHL"),
   ("england", "GBR"), ("france", "FRA"), ("germany", "DEU"), ("spain", "ESP"),
   ("italy", "ITA"), ("russia", "RUS"), ("turkey", "TUR"), ("egypt", "EGY"),
   ("south_africa", "ZAF"), ("kenya", "KEN"), ("nigeria", "NGA"),
   ("democratic_republic_of_the_congo", "COD"), ("united_arab_emirates", "ARE"),
   ("iran", "IRN"), ("pakistan", "PAK"), ("india", "IND"), ("indonesia", "IDN"),
   ("thailand", "THA"), ("philippines", "PHL"), ("japan", "JPN"),
   ("south_korea", "KOR"), ("china", "CHN"), ("australia", "AUS")]

/-- `LANG_MAP` lookup table. -/
def LANG_MAP : List (String × String) :=
  [("en", "en"), ("es", "es"), ("pt", "pt"), ("fr", "fr"), ("de", "de"),
   ("it", "it"), ("ru", "ru"), ("tr", "tr"), ("ar", "ar"), ("sw", "sw"),
   ("hi", "hi"), ("id", "id"), ("th", "th"), ("ja", "ja"), ("ko", "ko"),
   ("zh", "zh"), ("ph", "tl"), ("fa", "fa"), ("ur", "ur"), ("tl", "tl")]

/-- `DEFAULT_CITIES`. -/
def DEFAULT_CITIES : List String :=
  ["new_york_usa", "los_angeles_usa", "mexico_city_mexico", "sao_paulo_brazil",
   "buenos_aires_argentina", "london_england", "paris_france", "berlin_germany",
   "madrid_spain", "rome_italy", "moscow_russia", "istanbul_turkey",
   "cairo_egypt", "johannesburg_south_africa", "nairobi_kenya", "lagos_nigeria",
   "kinshasa_democratic_republic_of_the_congo", "dubai_united_arab_emirates",
   "mumbai_india", "delhi_india", "bangalore_india", "jakarta_indonesia",
   "bangkok_thailand", "manila_philippines", "tokyo_japan", "seoul_south_korea",
   "beijing_china", "shanghai_china", "hong_kong_china", "sydney_australia",
   "melbourne_australia", "toronto_canada", "vancouver_canada", "chicago_usa",
   "san_francisco_usa", "lima_peru", "bogota_colombia", "santiago_chile",
   "tehran_iran", "karachi_pakistan"]

/-- `to_iso3(country_slug)`: table lookup, else upper-cased first three
characters. -/
def toIso3 (slug : String) : String :=
  (ISO3.lookup (lowerStr slug)).getD (takeStr (upperStr slug) 3)

/-- `to_lang2(lang_code)`: table lookup, else lower-cased first two
characters. -/
def toLang2 (code : String) : String :=
  (LANG_MAP.lookup (lowerStr code)).getD (takeStr (lowerStr code) 2)

/-- Python `s.split("_")` on a character list. -/
def splitUnderscore : List Char → List (List Char)
  | [] => [[]]
  | c :: cs =>
    match splitUnderscore cs with
    | [] => [[]]
    | h :: t => if c = '_' then [] :: h :: t else (c :: h) :: t

/-- `city_id.split("_")`. -/
def splitId (s : String) : List String :=
  (splitUnderscore s.data).map (fun l => ⟨l⟩)

/-- Python `"_".join(parts)`. -/
def joinUnderscore (parts : List String) : String :=
  ⟨List.intercalate ['_'] (parts.map String.data)⟩

/-- The language-inference chain of `create_default_cities`. -/
def inferLang (country : String) : String :=
  if country ∈ ["mexico", "spain", "argentina", "colombia", "peru", "chile"] then "es"
  else if country ∈ ["brazil"] then "pt"
  else if country ∈ ["france"] then "fr"
  else if country ∈ ["germany"] then "de"
  else if country ∈ ["italy"] then "it"
  else if country ∈ ["russia"] then "ru"
  else if country ∈ ["turkey"] then "tr"
  else if country ∈ ["egypt"] then "ar"
  else if country ∈ ["india"] then "hi"
  else if country ∈ ["indonesia"] then "id"
  else if country ∈ ["thailand"] then "th"
  else if country ∈ ["japan"] then "ja"
  else if country ∈ ["south_korea"] then "ko"
  else if country ∈ ["china", "hong_kong_china"] then "zh"
  else if country ∈ ["iran"] then "fa"
  else if country ∈ ["pakistan"] then "ur"
  else if country ∈ ["philippines"] then "tl"
  else "en"

/-- `create_default_cities()`: the country slug is everything after the
first underscore; the language is inferred from that slug. -/
def createDefaultCities : List CityObj :=
  DEFAULT_CITIES.filterMap (fun cid =>
    let parts := splitId cid
    if 2 ≤ parts.length then
      let country := joinUnderscore parts.tail
      some { id := cid, country := country, language := inferLang country }
    else none)

/-- Exit code of `main`: merge mode runs `merge_csvs` and returns (exit 0);
an unreadable/non-JSON cities file raises uncaught (exit 1); a cities value
that is not an array hits `sys.exit(1)`; otherwise the per-city loop runs to
completion (exit 0), every city wrapped in `try`/`except`. -/
def mainExit (mergeFlag : Bool) (files : List (Except Unit (List MRow)))
    (citiesArg : Option CitiesFile) (run : CityObj → Except String Unit) : Nat :=
  if mergeFlag then
    let _ := mergeCsvs files
    0
  else
    match citiesArg with
    | some CitiesFile.unreadable => 1
    | some CitiesFile.notArray => 1
    | some (CitiesFile.array cs) =>
      let _ := orchestrate run cs
      0
    | none =>
      let _ := orchestrate run createDefaultCities
      0

/-- Rightmost index at which the two-character needle `a b` occurs
(Python `rfind` of a two-character needle; `-1` becomes `none`). -/
def rfind2 (a b : Char) : List Char → Option Nat
  | [] => none
  | [_] => none
  | c :: d :: rest =>
    match rfind2 a b (d :: rest) with
    | some j => some (j + 1)
    | none => if c = a ∧ d = b then some 0 else none

/-- Python `text.rfind(needle, 0, endExcl)` for a two-character needle:
the needle must lie entirely inside `text[0:endExcl]`. -/
def pyRfind2 (a b : Char) (l : List Char) (endExcl : Nat) : Option Nat :=
  rfind2 a b (l.take endExcl)

/-- The truncation-recovery heuristic of `call_openai`, applied to cleaned
content that does not end in a closing brace: find the last complete
closing token `"}` (unbounded `rfind`); look for a list separator `,{`
strictly inside the text up to and including that token; cut at the
separator when found, otherwise right after the closing token; append `]}`. -/
def recoverTruncated (cleaned : List Char) : List Char :=
  match rfind2 '"' '}' cleaned with
  | none => cleaned
  | some p =>
    match pyRfind2 ',' '{' cleaned (p + 2) with
    | some q => cleaned.take q ++ [']', '}']
    | none => cleaned.take (p + 2) ++ [']', '}']

/-- The raw-text cleanup path of `call_openai`: strip the content; when the
result is non-empty and does not end with a closing brace, apply the
recovery heuristic.  The returned text is what `json.loads` receives. -/
def fixTruncation (rawContent : List Char) : List Char :=
  let cleaned := trimList rawContent
  if cleaned ≠ [] ∧ cleaned.getLast? ≠ some '}' then recoverTruncated cleaned
  else cleaned

/-- Characters allowed in record names of serialized documents: plain
alphanumerics, which cannot collide with JSON structure characters. -/
def safeChar (c : Char) : Bool := c.isAlphanum

/-- Opening of one serialized record, the characters of `{"name":"`. -/
def recHead : List Char := ['{', '"', 'n', 'a', 'm', 'e', '"', ':', '"']

/-- One serialized record carrying the given name. -/
def recText (s : List Char) : List Char := recHead ++ s ++ ['"', '}']

/-- Document header, the characters of `{"contacts":[`. -/
def docHead : List Char :=
  ['{', '"', 'c', 'o', 'n', 't', 'a', 'c', 't', 's', '"', ':', '[']

/-- Comma-separated concatenation of serialized records. -/
def joinComma : List (List Char) → List Char
  | [] => []
  | [r] => r
  | r :: s :: t => r ++ ',' :: joinComma (s :: t)

/-- The body of a serialized document: header plus its records. -/
def docBody (ns : List (List Char)) : List Char :=
  docHead ++ joinComma (ns.map recText)

/-- A complete serialized document. -/
def docText (ns : List (List Char)) : List Char := docBody ns ++ [']', '}']

/-- A raw response cut mid-record: the complete records, the list separator
introducing the next record, and its incomplete fragment. -/
def truncText (ns : List (List Char)) (frag : List Char) : List Char :=
  docBody ns ++ ',' :: frag

/-- Consume an expected literal prefix. -/
def parseLit : List Char → List Char → Option (List Char)
  | [], l => some l
  | _ :: _, [] => none
  | e :: es, c :: cs => if c = e then parseLit es cs else none

/-- Parse one serialized record, returning its name and the rest. -/
def parseRec (l : List Char) : Option (List Char × List Char) :=
  (parseLit recHead l).bind (fun r =>
    let p := List.span safeChar r
    (parseLit ['"', '}'] p.2).map (fun r2 => (p.1, r2)))

/-- Parse a non-empty comma-separated record sequence (fuel-bounded). -/
def parseRecs : Nat → List Char → Option (List (List Char) × List Char)
  | 0, _ => none
  | fuel + 1, l =>
    (parseRec l).bind (fun sr =>
      if sr.2.head? = some ',' then
        (parseRecs fuel sr.2.tail).bind (fun st => some (sr.1 :: st.1, st.2))
      else some ([sr.1], sr.2))

/-- Parse a complete serialized document into its record names. -/
def parseDoc (l : List Char) : Option (List (List Char)) :=
  (parseLit docHead l).bind (fun r =>
    (parseRecs (r.length + 1) r).bind (fun nsr =>
      if nsr.2 = [']', '}'] then some nsr.1 else none))

/-- The records the recovery heuristic keeps from a document truncated
mid-record: all complete records when exactly one is complete, otherwise
all complete records except the last complete one. -/
def keptNames (ns : List (List Char)) : List (List Char) :=
  if ns.length ≤ 1 then ns else ns.dropLast

/-- Tail of `recHead` after its opening brace. -/
def rhTail : List Char := ['"', 'n', 'a', 'm', 'e', '"', ':', '"']

/-- The default city ids whose city-name part has more than one word, so
that "everything after the first underscore" is not the country slug. -/
def multiWordDefaultCityIds : List String :=
  ["new_york_usa", "los_angeles_usa", "mexico_city_mexico", "sao_paulo_brazil",
   "buenos_aires_argentina", "hong_kong_china", "san_francisco_usa"]

/-- A concrete raw model row for exercising the pipeline. -/
def exampleRaw : RawContact :=
  { name := some "Alice", email := some "a@x.com", country := some "ZZZ",
    language := some "xx", city := some "Elsewhere", instagram := none,
    phone := none, organization := none, type := some "other", notes := none }

/-- The record the pipeline writes for `exampleRaw` under the canonical
codes USA, en, New York, influencer. -/
def exampleContact : Contact :=
  { name := "Alice", email := some "a@x.com", country := "USA",
    language := "en", city := "New York", instagram := none, phone := none,
    organization := none, type := "influencer", notes := none }

/-- A contact with no email and no instagram, as `dedupe` receives it. -/
def noChannelContact : Contact :=
  { name := "Ghost", email := none, country := "USA", language := "en",
    city := "New York", instagram := none, phone := none,
    organization := none, type := "other", notes := none }

/-- A CSV row read back at merge time with empty email and instagram. -/
def noChannelRow : MRow :=
  { name := "Ghost", email := "", country := "USA", language := "en",
    city := "New York", instagram := "", phone := "", organization := "",
    type := "other", notes := "" }

/-- The concatenation, in order, of the normalized batches of the first `n`
attempts. -/
def streamOf (oracle : Nat → List RawContact) (need : Nat)
    (iso3 lang2 cityName ptype : String) (n : Nat) : List Contact :=
  ((List.range n).map (attemptRows oracle need iso3 lang2 cityName ptype)).flatten

/-- The candidate stream actually processed during one accumulation run. -/
def processedStream (oracle : Nat → List RawContact) (need : Nat)
    (iso3 lang2 cityName ptype : String) : List Contact :=
  streamOf oracle need iso3 lang2 cityName ptype
    (attemptsUsed oracle need iso3 lang2 cityName ptype)

/-- `r` occurs in `l` with no earlier record sharing its dedup key. -/
def firstWith (l : List Contact) (r : Contact) : Prop :=
  ∃ pre post, l = pre ++ r :: post ∧ ∀ p ∈ pre, dedupKey p ≠ dedupKey r

/-- A second raw-model record carrying the same email as `exampleContact`
up to case, as a normalized contact. -/
def exampleContact2 : Contact :=
  { name := "Alice2", email := some "A@X.COM", country := "USA",
    language := "en", city := "New York", instagram := none, phone := none,
    organization := none, type := "influencer", notes := none }

/-- If the needle's second character never occurs in `l`, then the needle
does not occur anywhere in `c :: l`. -/
theorem rfind2_none_of_second_not_mem (a b : Char) :
    ∀ (c : Char) (l : List Char), b ∉ l → rfind2 a b (c :: l) = none := by
  intro c l
  induction l generalizing c with
  | nil => intro _; rfl
  | cons d rest ih =>
    intro h
    have hd : d ≠ b := fun he => h (he ▸ List.mem_cons_self d rest)
    have hrest : b ∉ rest := fun hm => h (List.mem_cons_of_mem d hm)
    show rfind2 a b (c :: d :: rest) = none
    rw [rfind2, ih d hrest]
    simp only []
    rw [if_neg]
    rintro ⟨-, h2⟩
    exact hd h2

/-- If the needle's first character never occurs in `l`, the needle does
not occur in `l`. -/
theorem rfind2_none_of_first_not_mem (a b : Char) :
    ∀ l : List Char, a ∉ l → rfind2 a b l = none := by
  intro l
  induction l with
  | nil => intro _; rfl
  | cons c rest ih =>
    intro h
    have hc : c ≠ a := fun he => h (he ▸ List.mem_cons_self c rest)
    have hrest : a ∉ rest := fun hm => h (List.mem_cons_of_mem c hm)
    match rest with
    | [] => rfl
    | d :: rest2 =>
      rw [rfind2, ih hrest]
      simp only []
      rw [if_neg]
      rintro ⟨h1, -⟩
      exact hc h1

/-- When the needle occurs right before a tail free of its second
character, that occurrence is the rightmost one. -/
theorem rfind2_last (a b : Char) (zs : List Char) (hzs : b ∉ zs) :
    ∀ xs : List Char, rfind2 a b (xs ++ a :: b :: zs) = some xs.length := by
  intro xs
  induction xs with
  | nil =>
    show rfind2 a b (a :: b :: zs) = some 0
    rw [rfind2, rfind2_none_of_second_not_mem a b b zs hzs]
    simp
  | cons x xs ih =>
    rcases hx : xs ++ a :: b :: zs with - | ⟨d, rest⟩
    · exact absurd hx (by simp)
    · rw [hx] at ih
      rw [List.cons_append, hx, List.length_cons, rfind2, ih]

/-- Taking up to just past an embedded needle keeps the prefix and the
needle. -/
theorem take_append_two (a b : Char) (zs : List Char) :
    ∀ xs : List Char, (xs ++ a :: b :: zs).take (xs.length + 2) = xs ++ [a, b] := by
  intro xs
  induction xs with
  | nil => rfl
  | cons x xs ih =>
    rw [List.cons_append, List.length_cons]
    have h : xs.length + 1 + 2 = xs.length + 2 + 1 := by omega
    rw [h, List.take_succ_cons, ih, List.cons_append]

/-- Appending one more record to a non-empty comma-joined list. -/
theorem joinComma_concat (r : List Char) :
    ∀ rs : List (List Char), rs ≠ [] →
      joinComma (rs ++ [r]) = joinComma rs ++ ',' :: r := by
  intro rs
  induction rs with
  | nil => intro h; exact absurd rfl h
  | cons x rs ih =>
    intro _
    cases rs with
    | nil => rfl
    | cons y t =>
      have ih' := ih (by simp)
      simp only [List.cons_append] at ih' ⊢
      rw [joinComma, joinComma, ih']
      simp [List.append_assoc]

/-- Every character of a comma-joined list is a comma or comes from one of
the pieces. -/
theorem mem_joinComma (c : Char) :
    ∀ rs : List (List Char), c ∈ joinComma rs → c = ',' ∨ ∃ r ∈ rs, c ∈ r := by
  intro rs
  induction rs with
  | nil => intro h; simp [joinComma] at h
  | cons x rs ih =>
    cases rs with
    | nil =>
      intro h
      right
      exact ⟨x, by simp, by simpa [joinComma] using h⟩
    | cons y t =>
      intro h
      rw [joinComma] at h
      rcases List.mem_append.mp h with h1 | h2
      · right; exact ⟨x, by simp, h1⟩
      · rcases List.mem_cons.mp h2 with h3 | h4
        · left; exact h3
        · rcases ih h4 with h5 | ⟨r, hr, hcr⟩
          · left; exact h5
          · right; exact ⟨r, List.mem_cons_of_mem x hr, hcr⟩

/-- A safe (alphanumeric) character differs from any non-alphanumeric one. -/
theorem safe_ne (c x : Char) (h : safeChar c = true) (hx : safeChar x = false) :
    c ≠ x := by
  intro he
  rw [he, hx] at h
  exact Bool.false_ne_true h

/-- Safe characters are not whitespace. -/
theorem safe_not_ws (c : Char) (h : safeChar c = true) :
    c.isWhitespace = false := by
  by_cases h1 : c = ' '
  · subst h1; exact absurd h (by decide)
  by_cases h2 : c = '\t'
  · subst h2; exact absurd h (by decide)
  by_cases h3 : c = '\r'
  · subst h3; exact absurd h (by decide)
  by_cases h4 : c = '\n'
  · subst h4; exact absurd h (by decide)
  simp [Char.isWhitespace, h1, h2, h3, h4]

/-- `dropWhile` is the identity when the predicate fails everywhere. -/
theorem dropWhile_eq_self_of_all_false {p : Char → Bool} :
    ∀ l : List Char, (∀ c ∈ l, p c = false) → l.dropWhile p = l := by
  intro l h
  cases l with
  | nil => rfl
  | cons x t => rw [List.dropWhile_cons, h x (by simp)]; simp

/-- Stripping is the identity on whitespace-free text. -/
theorem trimList_eq_self (l : List Char)
    (h : ∀ c ∈ l, c.isWhitespace = false) : trimList l = l := by
  unfold trimList
  rw [dropWhile_eq_self_of_all_false l h,
    dropWhile_eq_self_of_all_false l.reverse
      (fun c hc => h c (List.mem_reverse.mp hc)),
    List.reverse_reverse]

/-- Unfolding of the heuristic when the closing token is found but no list
separator precedes it. -/
theorem recoverTruncated_close_only (cleaned : List Char) (p : Nat)
    (h1 : rfind2 '"' '}' cleaned = some p)
    (h2 : pyRfind2 ',' '{' cleaned (p + 2) = none) :
    recoverTruncated cleaned = cleaned.take (p + 2) ++ [']', '}'] := by
  unfold recoverTruncated
  split
  · next heq => rw [h1] at heq; cases heq
  · next p' heq =>
    rw [h1] at heq
    injection heq with hp
    subst hp
    split
    · next q heq2 => rw [h2] at heq2; cases heq2
    · rfl

/-- Unfolding of the heuristic when both the closing token and a preceding
list separator are found. -/
theorem recoverTruncated_cut_sep (cleaned : List Char) (p q : Nat)
    (h1 : rfind2 '"' '}' cleaned = some p)
    (h2 : pyRfind2 ',' '{' cleaned (p + 2) = some q) :
    recoverTruncated cleaned = cleaned.take q ++ [']', '}'] := by
  unfold recoverTruncated
  split
  · next heq => rw [h1] at heq; cases heq
  · next p' heq =>
    rw [h1] at heq
    injection heq with hp
    subst hp
    split
    · next q' heq2 =>
      rw [h2] at heq2
      injection heq2 with hq
      subst hq
      rfl
    · next heq2 => rw [h2] at heq2; cases heq2

/-- What the recovery heuristic computes on a document truncated
mid-record: with exactly one complete record, that record is preserved;
with two or more, the cut lands on the separator before the last complete
record, dropping it as well. -/
theorem recoverTruncated_truncText (ms : List (List Char)) (m frag : List Char)
    (hm : ∀ c ∈ m, safeChar c = true)
    (hfrag : '}' ∉ frag) :
    recoverTruncated (truncText (ms ++ [m]) frag) =
      docText (if ms = [] then [m] else ms) := by
  have hzs : '}' ∉ (',' :: frag) := by
    intro hmem
    rcases List.mem_cons.mp hmem with h | h
    · exact absurd h (by decide)
    · exact hfrag h
  cases ms with
  | nil =>
    rw [if_pos rfl]
    have e1 : truncText ([] ++ [m]) frag =
        (docHead ++ recHead ++ m) ++ '"' :: '}' :: (',' :: frag) := by
      simp [truncText, docBody, joinComma, recText, List.append_assoc]
    rw [e1]
    have h1 := rfind2_last '"' '}' (',' :: frag) hzs (docHead ++ recHead ++ m)
    have htake := take_append_two '"' '}' (',' :: frag) (docHead ++ recHead ++ m)
    have h2 : pyRfind2 ',' '{'
        ((docHead ++ recHead ++ m) ++ '"' :: '}' :: (',' :: frag))
        ((docHead ++ recHead ++ m).length + 2) = none := by
      unfold pyRfind2
      rw [htake]
      apply rfind2_none_of_first_not_mem
      intro hmem
      rcases List.mem_append.mp hmem with h | h
      · rcases List.mem_append.mp h with h' | h'
        · rcases List.mem_append.mp h' with h'' | h''
          · exact absurd h'' (by decide)
          · exact absurd h'' (by decide)
        · exact safe_ne ',' ',' (hm ',' h') (by decide) rfl
      · exact absurd h (by decide)
    rw [recoverTruncated_close_only _ _ h1 h2, htake]
    simp [docText, docBody, joinComma, recText, List.append_assoc]
  | cons mm mt =>
    rw [if_neg (by simp)]
    have hJ : joinComma (((mm :: mt) ++ [m]).map recText) =
        joinComma ((mm :: mt).map recText) ++ ',' :: recText m := by
      rw [List.map_append]
      exact joinComma_concat (recText m) ((mm :: mt).map recText) (by simp)
    have e1 : truncText ((mm :: mt) ++ [m]) frag =
        (docHead ++ joinComma ((mm :: mt).map recText) ++ ',' :: recHead ++ m)
          ++ '"' :: '}' :: (',' :: frag) := by
      unfold truncText docBody
      rw [hJ]
      simp [recText, List.append_assoc]
    rw [e1]
    have h1 := rfind2_last '"' '}' (',' :: frag) hzs
      (docHead ++ joinComma ((mm :: mt).map recText) ++ ',' :: recHead ++ m)
    have htake := take_append_two '"' '}' (',' :: frag)
      (docHead ++ joinComma ((mm :: mt).map recText) ++ ',' :: recHead ++ m)
    have hW : '{' ∉ rhTail ++ m ++ ['"', '}'] := by
      intro hmem
      rcases List.mem_append.mp hmem with h | h
      · rcases List.mem_append.mp h with h' | h'
        · exact absurd h' (by decide)
        · exact safe_ne '{' '{' (hm '{' h') (by decide) rfl
      · exact absurd h (by decide)
    have e2 : (docHead ++ joinComma ((mm :: mt).map recText) ++ ',' :: recHead ++ m)
          ++ ['"', '}'] =
        (docHead ++ joinComma ((mm :: mt).map recText))
          ++ ',' :: '{' :: (rhTail ++ m ++ ['"', '}']) := by
      simp [recHead, rhTail, List.append_assoc]
    have h2 : pyRfind2 ',' '{'
        ((docHead ++ joinComma ((mm :: mt).map recText) ++ ',' :: recHead ++ m)
          ++ '"' :: '}' :: (',' :: frag))
        ((docHead ++ joinComma ((mm :: mt).map recText) ++ ',' :: recHead ++ m).length + 2) =
        some (docHead ++ joinComma ((mm :: mt).map recText)).length := by
      unfold pyRfind2
      rw [htake, e2]
      exact rfind2_last ',' '{' (rhTail ++ m ++ ['"', '}']) hW
        (docHead ++ joinComma ((mm :: mt).map recText))
    rw [recoverTruncated_cut_sep _ _ _ h1 h2]
    have e3 : (docHead ++ joinComma ((mm :: mt).map recText) ++ ',' :: recHead ++ m)
          ++ '"' :: '}' :: (',' :: frag) =
        (docHead ++ joinComma ((mm :: mt).map recText))
          ++ (',' :: recHead ++ m ++ '"' :: '}' :: (',' :: frag)) := by
      simp [List.append_assoc]
    rw [e3, List.take_left]
    simp [docText, docBody, List.append_assoc]

/-- Truncated serialized documents contain no whitespace. -/
theorem truncText_not_ws (ns : List (List Char)) (frag : List Char)
    (hs : ∀ s ∈ ns, ∀ c ∈ s, safeChar c = true)
    (hf : ∀ c ∈ frag, c.isWhitespace = false) :
    ∀ c ∈ truncText ns frag, c.isWhitespace = false := by
  intro c hc
  unfold truncText docBody at hc
  rcases List.mem_append.mp hc with h | h
  · rcases List.mem_append.mp h with h1 | h2
    · exact (show ∀ x ∈ docHead, x.isWhitespace = false by decide) c h1
    · rcases mem_joinComma c _ h2 with hcomma | ⟨r, hr, hcr⟩
      · subst hcomma; decide
      · rcases List.mem_map.mp hr with ⟨s, hs', rfl⟩
        unfold recText at hcr
        rcases List.mem_append.mp hcr with h3 | h4
        · rcases List.mem_append.mp h3 with h5 | h6
          · exact (show ∀ x ∈ recHead, x.isWhitespace = false by decide) c h5
          · exact safe_not_ws c (hs s hs' c h6)
        · exact (show ∀ x ∈ ['"', '}'], x.isWhitespace = false by decide) c h4
  · rcases List.mem_cons.mp h with h1 | h2
    · subst h1; decide
    · exact hf c h2

/-- A document truncated mid-record never ends with a closing brace. -/
theorem truncText_getLast_ne (ns : List (List Char)) (frag : List Char)
    (hfrag : '}' ∉ frag) :
    (truncText ns frag).getLast? ≠ some '}' := by
  rcases List.eq_nil_or_concat frag with rfl | ⟨g, d, rfl⟩
  · have e : truncText ns [] = docBody ns ++ [','] := rfl
    rw [e, List.getLast?_concat]
    simp
  · simp only [List.concat_eq_append] at hfrag ⊢
    have e : truncText ns (g ++ [d]) = (docBody ns ++ ',' :: g) ++ [d] := by
      simp [truncText, List.append_assoc]
    rw [e, List.getLast?_concat]
    have hd : d ≠ '}' := fun he => hfrag (he ▸ (by simp : d ∈ g ++ [d]))
    simp [hd]

/-- On a truncated serialized document, the cleanup path of `call_openai`
leaves the text unchanged by `strip` and enters the recovery branch. -/
theorem fixTruncation_truncText (ns : List (List Char)) (frag : List Char)
    (hs : ∀ s ∈ ns, ∀ c ∈ s, safeChar c = true)
    (hfrag : '}' ∉ frag)
    (hf : ∀ c ∈ frag, c.isWhitespace = false) :
    fixTruncation (truncText ns frag) = recoverTruncated (truncText ns frag) := by
  simp only [fixTruncation]
  rw [trimList_eq_self _ (truncText_not_ws ns frag hs hf)]
  rw [if_pos ⟨by simp [truncText], truncText_getLast_ne ns frag hfrag⟩]

/-- `parseLit` consumes exactly its literal. -/
theorem parseLit_append (lit : List Char) :
    ∀ r : List Char, parseLit lit (lit ++ r) = some r := by
  induction lit with
  | nil => intro r; rfl
  | cons e es ih =>
    intro r
    rw [List.cons_append, parseLit, if_pos rfl]
    exact ih r

/-- `takeWhile safeChar` stops exactly at the closing quote. -/
theorem takeWhile_safe (r : List Char) :
    ∀ s : List Char, (∀ c ∈ s, safeChar c = true) →
      List.takeWhile safeChar (s ++ '"' :: r) = s := by
  intro s
  induction s with
  | nil =>
    intro _
    rw [List.nil_append, List.takeWhile_cons,
      show safeChar '"' = false from by decide]
    simp
  | cons c cs ih =>
    intro h
    have hc := h c (by simp)
    have ih' := ih (fun x hx => h x (by simp [hx]))
    simp [List.cons_append, List.takeWhile_cons, hc, ih']

/-- `dropWhile safeChar` drops exactly the name. -/
theorem dropWhile_safe (r : List Char) :
    ∀ s : List Char, (∀ c ∈ s, safeChar c = true) →
      List.dropWhile safeChar (s ++ '"' :: r) = '"' :: r := by
  intro s
  induction s with
  | nil =>
    intro _
    rw [List.nil_append, List.dropWhile_cons,
      show safeChar '"' = false from by decide]
    simp
  | cons c cs ih =>
    intro h
    have hc := h c (by simp)
    have ih' := ih (fun x hx => h x (by simp [hx]))
    simp [List.cons_append, List.dropWhile_cons, hc, ih']

/-- `parseRec` inverts `recText`. -/
theorem parseRec_recText (s : List Char) (hs : ∀ c ∈ s, safeChar c = true)
    (r : List Char) : parseRec (recText s ++ r) = some (s, r) := by
  unfold parseRec recText
  have e : (recHead ++ s ++ ['"', '}']) ++ r = recHead ++ (s ++ '"' :: '}' :: r) := by
    simp [List.append_assoc]
  rw [e, parseLit_append]
  simp only [Option.some_bind]
  rw [List.span_eq_take_drop, takeWhile_safe ('}' :: r) s hs,
    dropWhile_safe ('}' :: r) s hs]
  have e2 : ('"' :: '}' :: r) = ['"', '}'] ++ r := rfl
  rw [e2, parseLit_append]
  rfl

/-- Each serialized record contributes at least one character, so the body
length bounds the record count. -/
theorem length_le_joinComma :
    ∀ ns : List (List Char), ns.length ≤ (joinComma (ns.map recText)).length := by
  intro ns
  induction ns with
  | nil => simp [joinComma]
  | cons n ns ih =>
    cases ns with
    | nil => simp [joinComma, recText, recHead]
    | cons n2 ns2 =>
      simp only [List.map_cons, joinComma, List.length_append, List.length_cons] at ih ⊢
      have hlen : 1 ≤ (recText n).length := by simp [recText, recHead]
      omega

/-- `parseRecs` inverts `joinComma` on serialized records, given enough
fuel and a continuation that does not begin with a comma. -/
theorem parseRecs_joinComma :
    ∀ (ns : List (List Char)) (fuel : Nat) (rest : List Char),
      ns ≠ [] → ns.length ≤ fuel →
      (∀ s ∈ ns, ∀ c ∈ s, safeChar c = true) →
      rest.head? ≠ some ',' →
      parseRecs fuel (joinComma (ns.map recText) ++ rest) = some (ns, rest) := by
  intro ns
  induction ns with
  | nil => intro fuel rest h; exact absurd rfl h
  | cons n ns ih =>
    intro fuel rest _ hfuel hsafe hhead
    cases fuel with
    | zero => simp at hfuel
    | succ f =>
      cases ns with
      | nil =>
        simp only [List.map_cons, List.map_nil, joinComma]
        rw [parseRecs, parseRec_recText n (hsafe n (by simp)) rest]
        simp only [Option.some_bind]
        rw [if_neg hhead]
      | cons n2 ns2 =>
        simp only [List.map_cons, joinComma]
        have e : (recText n ++ ',' :: joinComma (recText n2 :: ns2.map recText)) ++ rest =
            recText n ++ (',' :: (joinComma (recText n2 :: ns2.map recText) ++ rest)) := by
          simp [List.append_assoc]
        rw [e, parseRecs, parseRec_recText n (hsafe n (by simp)) _]
        simp only [Option.some_bind, List.head?_cons, List.tail_cons, if_pos rfl]
        have ih' := ih f rest (by simp) (by simpa using Nat.le_of_succ_le_succ hfuel)
          (fun s hsm => hsafe s (by simp [hsm])) hhead
        simp only [List.map_cons] at ih'
        rw [ih']
        simp

/-- Parsing inverts serialization: complete serialized documents are
well-formed and recover exactly their record names. -/
theorem parseDoc_docText (ns : List (List Char)) (hne : ns ≠ [])
    (hsafe : ∀ s ∈ ns, ∀ c ∈ s, safeChar c = true) :
    parseDoc (docText ns) = some ns := by
  unfold parseDoc docText docBody
  have e : (docHead ++ joinComma (ns.map recText)) ++ [']', '}'] =
      docHead ++ (joinComma (ns.map recText) ++ [']', '}']) := by
    simp [List.append_assoc]
  rw [e, parseLit_append]
  simp only [Option.some_bind]
  have hlen : ns.length ≤ (joinComma (ns.map recText) ++ [']', '}']).length + 1 := by
    have := length_le_joinComma ns
    simp only [List.length_append]
    omega
  rw [parseRecs_joinComma ns ((joinComma (ns.map recText) ++ [']', '}']).length + 1)
    [']', '}'] hne hlen hsafe (by simp)]
  simp

/-- Claim C1 (amended): for a raw text that ends mid-record after at least
one complete record, the Model Gateway's truncation-recovery heuristic
produces a parseable document with no malformed trailing fragment, but it
preserves every complete prior record only when exactly one record is
complete; with two or more complete records it also drops the last
complete record (the bounded `rfind(",{", 0, last+2)` lands on the
separator before it), keeping exactly the earlier ones. -/
theorem claim_C1_amended (ns : List (List Char)) (frag : List Char)
    (hne : ns ≠ [])
    (hsafe : ∀ s ∈ ns, ∀ c ∈ s, safeChar c = true)
    (hfrag : '}' ∉ frag)
    (hfragWs : ∀ c ∈ frag, c.isWhitespace = false) :
    fixTruncation (truncText ns frag) = docText (keptNames ns) ∧
    parseDoc (docText (keptNames ns)) = some (keptNames ns) := by
  obtain ⟨ms, m, rfl⟩ : ∃ ms m, ns = ms ++ [m] := by
    rcases List.eq_nil_or_concat ns with rfl | ⟨L, b, h⟩
    · exact absurd rfl hne
    · exact ⟨L, b, by simpa [List.concat_eq_append] using h⟩
  have hkept : keptNames (ms ++ [m]) = if ms = [] then [m] else ms := by
    unfold keptNames
    cases ms with
    | nil => simp
    | cons x t =>
      rw [if_neg (by simp), if_neg (by simp), List.dropLast_concat]
  have hm : ∀ c ∈ m, safeChar c = true := hsafe m (by simp)
  constructor
  · rw [fixTruncation_truncText (ms ++ [m]) frag hsafe hfrag hfragWs,
      recoverTruncated_truncText ms m frag hm hfrag, hkept]
  · rw [hkept]
    cases ms with
    | nil =>
      rw [if_pos rfl]
      exact parseDoc_docText [m] (by simp) (by simpa using hm)
    | cons x t =>
      rw [if_neg (by simp)]
      refine parseDoc_docText (x :: t) (by simp) (fun s hsm => hsafe s ?_)
      rcases List.mem_cons.mp hsm with h | h
      · simp [h]
      · simp [h]

/-- Claim C1, witness: a concrete truncated response with two complete
records and a fragment, run through the amended statement. -/
theorem claim_C1_witness :
    fixTruncation (truncText [['A'], ['B']] ['{', '"']) =
      docText (keptNames [['A'], ['B']]) ∧
    parseDoc (docText (keptNames [['A'], ['B']])) =
      some (keptNames [['A'], ['B']]) :=
  claim_C1_amended [['A'], ['B']] ['{', '"'] (by decide) (by decide)
    (by decide) (by decide)

/-- Claim C1, counterexample to the claim as stated: the raw text
`{"contacts":[{"name":"A"},{"name":"B"},{"` ends mid-record after TWO
complete records, yet the recovery heuristic returns
`{"contacts":[{"name":"A"}]}` — the complete prior record `B` is dropped,
so the recovered document does not contain every complete prior record. -/
theorem claim_C1_counterexample :
    fixTruncation (truncText [['A'], ['B']] ['{', '"']) = docText [['A']] ∧
    parseDoc (fixTruncation (truncText [['A'], ['B']] ['{', '"'])) =
      some [['A']] ∧
    ['B'] ∉ [['A']] := by decide

/-- If the accumulation loop exits still short of the target, it exits
because the attempt budget is exhausted. -/
theorem collectGo_attempts_of_short (oracle : Nat → List RawContact) (need : Nat)
    (iso3 lang2 cityName ptype : String) :
    ∀ (rem : Nat) (collected : List Contact) (seen : List String),
      (collectGo oracle need iso3 lang2 cityName ptype rem collected seen).1.length < need →
      (collectGo oracle need iso3 lang2 cityName ptype rem collected seen).2 = 4 := by
  intro rem
  induction rem with
  | zero => intro c s _; rfl
  | succ rem ih =>
    intro c s h
    rw [collectGo] at h ⊢
    by_cases hlt : c.length < need
    · rw [if_pos hlt] at h ⊢
      exact ih _ _ h
    · rw [if_neg hlt] at h
      exact absurd h hlt

/-- Claim C2: for every city, partner type and target count, the
accumulation loop returns at most `targetCount` records, and it returns
fewer only when the loop has completed its 4 attempts with the running
collection still short of the target. -/
theorem claim_C2 (oracle : Nat → List RawContact) (need : Nat)
    (iso3 lang2 cityName ptype : String) :
    (collect oracle need iso3 lang2 cityName ptype).length ≤ need ∧
    ((collect oracle need iso3 lang2 cityName ptype).length < need →
      attemptsUsed oracle need iso3 lang2 cityName ptype = 4 ∧
      (collectRaw oracle need iso3 lang2 cityName ptype).length < need) := by
  constructor
  · simp [collect, List.length_take]
  · intro h
    have hraw : (collectRaw oracle need iso3 lang2 cityName ptype).length < need := by
      by_contra hge
      push_neg at hge
      have : (collect oracle need iso3 lang2 cityName ptype).length = need := by
        simp only [collect, List.length_take]
        omega
      omega
    exact ⟨collectGo_attempts_of_short oracle need iso3 lang2 cityName ptype 4 [] [] hraw,
      hraw⟩

/-- Claim C2, witness: with an oracle returning nothing and a target of 1,
the loop returns 0 records after its 4 attempts. -/
theorem claim_C2_witness :
    (collect (fun _ => []) 1 "" "" "" "").length ≤ 1 ∧
    (attemptsUsed (fun _ => []) 1 "" "" "" "" = 4 ∧
      (collectRaw (fun _ => []) 1 "" "" "" "").length < 1) :=
  ⟨(claim_C2 (fun _ => []) 1 "" "" "" "").1,
   (claim_C2 (fun _ => []) 1 "" "" "" "").2 (by decide)⟩

/-- Claim C5: when the output file for a (city, type) pair exists,
re-running the pair performs zero generation calls and leaves the whole
filesystem — in particular that file — unchanged; only existence is
consulted, never the file's content. -/
theorem claim_C5 (oracle : Nat → List RawContact) (fs : FS)
    (outRoot cityId ptype iso3 lang2 cityName : String) (perType : Nat)
    (h : fileExists fs (outPath outRoot cityId ptype) = true) :
    runPair oracle fs outRoot cityId ptype iso3 lang2 cityName perType = (fs, 0) := by
  unfold runPair
  rw [if_pos h]

/-- Claim C5, witness: a filesystem already holding the pair's file is
returned untouched with zero calls. -/
theorem claim_C5_witness :
    runPair (fun _ => []) [(outPath "out" "paris_france" "influencer", [])]
      "out" "paris_france" "influencer" "FRA" "fr" "Paris" 100 =
      ([(outPath "out" "paris_france" "influencer", [])], 0) :=
  claim_C5 (fun _ => []) [(outPath "out" "paris_france" "influencer", [])]
    "out" "paris_france" "influencer" "FRA" "fr" "Paris" 100 (by decide)

/-- Claim C6 (amended): merge mode always exits zero — in particular over a
root with no discoverable files it only logs "No contacts found to merge."
— and the process exits non-zero only for CLI-level misuse: an unreadable
or non-JSON cities file, or a cities value that is not an array; per-city
failures never make the run exit non-zero. -/
theorem claim_C6_amended (mergeFlag : Bool)
    (files : List (Except Unit (List MRow)))
    (citiesArg : Option CitiesFile) (run : CityObj → Except String Unit) :
    mainExit true files citiesArg run = 0 ∧
    (mainExit mergeFlag files citiesArg run ≠ 0 →
      mergeFlag = false ∧
      (citiesArg = some CitiesFile.unreadable ∨
        citiesArg = some CitiesFile.notArray)) := by
  constructor
  · simp [mainExit]
  · intro h
    unfold mainExit at h
    by_cases hm : mergeFlag
    · rw [if_pos hm] at h
      simp at h
    · rw [if_neg hm] at h
      refine ⟨by simpa using hm, ?_⟩
      cases citiesArg with
      | none => simp at h
      | some cf =>
        cases cf with
        | unreadable => left; rfl
        | notArray => right; rfl
        | array cs => simp at h

/-- Claim C6, witness: a not-an-array cities file makes a non-merge run
exit non-zero, and that is classified as CLI misuse. -/
theorem claim_C6_witness :
    mainExit true [] (some CitiesFile.notArray) (fun _ => Except.ok ()) = 0 ∧
    (false = false ∧
      ((some CitiesFile.notArray : Option CitiesFile) = some CitiesFile.unreadable ∨
        (some CitiesFile.notArray : Option CitiesFile) = some CitiesFile.notArray)) :=
  ⟨(claim_C6_amended false [] (some CitiesFile.notArray) (fun _ => Except.ok ())).1,
   (claim_C6_amended false [] (some CitiesFile.notArray) (fun _ => Except.ok ())).2
     (by decide)⟩

/-- Claim C6, counterexample to the claim as stated: merge mode over a root
with no discoverable per-pair files exits with status 0, not non-zero —
`merge_csvs` just prints "No contacts found to merge." and `main` returns. -/
theorem claim_C6_counterexample :
    mainExit true [] none (fun _ => Except.ok ()) = 0 := by decide

/-- Claim C9: the per-city loop processes every city independently — the
log of a batch splits around any city, so an exception inside one city
(caught by the `try`/`except`) never changes how the remaining cities are
processed — and a failing city is logged with its identifier. -/
theorem claim_C9 (run : CityObj → Except String Unit)
    (cs1 cs2 : List CityObj) (c : CityObj) :
    orchestrate run (cs1 ++ c :: cs2) =
      orchestrate run cs1 ++ cityLog run c ++ orchestrate run cs2 ∧
    (∀ e, run c = Except.error e →
      cityLog run c = [LogEntry.progress c.id, LogEntry.warn c.id e]) := by
  constructor
  · induction cs1 with
    | nil => simp [orchestrate]
    | cons x xs ih => simp [orchestrate, ih, List.append_assoc]
  · intro e he
    unfold cityLog
    rw [he]

/-- Claim C9, witness: a batch of three cities whose middle city fails is
fully processed, and the failure is logged with the middle city's id. -/
theorem claim_C9_witness :
    orchestrate (fun c => if c.id = "b" then Except.error "boom" else Except.ok ())
        ([⟨"a", "", ""⟩] ++ (⟨"b", "", ""⟩ : CityObj) :: [⟨"c", "", ""⟩]) =
      orchestrate (fun c => if c.id = "b" then Except.error "boom" else Except.ok ())
        [⟨"a", "", ""⟩] ++
      cityLog (fun c => if c.id = "b" then Except.error "boom" else Except.ok ())
        ⟨"b", "", ""⟩ ++
      orchestrate (fun c => if c.id = "b" then Except.error "boom" else Except.ok ())
        [⟨"c", "", ""⟩] ∧
    cityLog (fun c => if c.id = "b" then Except.error "boom" else Except.ok ())
        ⟨"b", "", ""⟩ =
      [LogEntry.progress "b", LogEntry.warn "b" "boom"] :=
  ⟨(claim_C9 (fun c => if c.id = "b" then Except.error "boom" else Except.ok ())
      [⟨"a", "", ""⟩] [⟨"c", "", ""⟩] ⟨"b", "", ""⟩).1,
   (claim_C9 (fun c => if c.id = "b" then Except.error "boom" else Except.ok ())
      [⟨"a", "", ""⟩] [⟨"c", "", ""⟩] ⟨"b", "", ""⟩).2 "boom" rfl⟩

/-- Claim C10: the built-in default table infers each city's country slug
as everything after the first underscore of the id; for every multi-word
city name this slug is not in the ISO-3 table, so `to_iso3` falls back to
the first three upper-cased characters, and the language inference falls
back to "en" — e.g. "new_york_usa" gives slug "york_usa" and code "YOR",
"hong_kong_china" gives "kong_china" and "KON", both with language "en". -/
theorem claim_C10 :
    (createDefaultCities.all
      (fun c => c.country == joinUnderscore (splitId c.id).tail)) = true ∧
    (createDefaultCities.all (fun c =>
      !(multiWordDefaultCityIds.contains c.id) ||
        ((ISO3.lookup c.country == none) &&
          (toIso3 c.country == takeStr (upperStr c.country) 3) &&
          (c.language == "en")))) = true ∧
    toIso3 "york_usa" = "YOR" ∧
    toIso3 "kong_china" = "KON" ∧
    ({ id := "new_york_usa", country := "york_usa", language := "en" } : CityObj)
      ∈ createDefaultCities ∧
    ({ id := "hong_kong_china", country := "kong_china", language := "en" } : CityObj)
      ∈ createDefaultCities := by decide

/-- The filtered batch is a subsequence of its input. -/
theorem filterSeenBy_sublist (key : α → String) :
    ∀ (seen : List String) (rs : List α),
      (filterSeenBy key seen rs).1.Sublist rs := by
  intro seen rs
  induction rs generalizing seen with
  | nil => simp [filterSeenBy]
  | cons r rs ih =>
    simp only [filterSeenBy]
    split
    · exact (ih _).cons₂ r
    · exact (ih _).cons r

/-- What `(x or None)` keeps is never the empty string. -/
theorem pyOrNone_some (o : Option String) (s : String)
    (h : pyOrNone o = some s) : s ≠ "" := by
  unfold pyOrNone at h
  cases o with
  | none => cases h
  | some t =>
    dsimp only at h
    split at h
    · cases h
    · next hne =>
      injection h with h2
      exact h2 ▸ hne

/-- Every record of `enforce_and_trim`'s output has a non-empty trimmed
name, at least one non-empty contact channel, and carries exactly the
caller-supplied country, language, city and type. -/
theorem enforceAndTrim_mem (rows : List RawContact) (needed : Nat)
    (iso3 lang2 cityName ptype : String) (r : Contact)
    (hr : r ∈ enforceAndTrim rows needed iso3 lang2 cityName ptype) :
    r.name ≠ "" ∧
    (pyOrEmpty r.email ≠ "" ∨ pyOrEmpty r.instagram ≠ "") ∧
    (r.email ≠ none ∨ r.instagram ≠ none) ∧
    r.country = iso3 ∧ r.language = lang2 ∧ r.city = cityName ∧ r.type = ptype := by
  unfold enforceAndTrim at hr
  have hr1 := List.take_subset needed _ hr
  have hr2 := (filterSeenBy_sublist dedupKey [] _).subset hr1
  rcases List.mem_filterMap.mp hr2 with ⟨raw, -, hf⟩
  dsimp only at hf
  split at hf
  · cases hf
  · split at hf
    · cases hf
    · next hchan hname =>
      injection hf with hf
      subst hf
      refine ⟨hname, ?_, ?_, rfl, rfl, rfl, rfl⟩
      · rcases not_and_or.mp hchan with h | h
        · left
          rcases he : pyOrNone raw.email with - | s
          · exact absurd he h
          · have hs := pyOrNone_some raw.email s he
            simpa [pyOrEmpty, he] using hs
        · right
          rcases he : pyOrNone raw.instagram with - | s
          · exact absurd he h
          · have hs := pyOrNone_some raw.instagram s he
            simpa [pyOrEmpty, he] using hs
      · exact not_and_or.mp hchan

/-- Every record the loop accumulates either was already collected or came
out of some attempt's normalized batch. -/
theorem collectGo_mem (oracle : Nat → List RawContact) (need : Nat)
    (iso3 lang2 cityName ptype : String) :
    ∀ (rem : Nat) (coll : List Contact) (seen : List String) (r : Contact),
      r ∈ (collectGo oracle need iso3 lang2 cityName ptype rem coll seen).1 →
      r ∈ coll ∨ ∃ j, r ∈ attemptRows oracle need iso3 lang2 cityName ptype j := by
  intro rem
  induction rem with
  | zero => intro coll seen r h; exact Or.inl h
  | succ rem ih =>
    intro coll seen r h
    rw [collectGo] at h
    by_cases hlt : coll.length < need
    · rw [if_pos hlt] at h
      rcases ih _ _ r h with hin | hsome
      · rcases List.mem_append.mp hin with h1 | h2
        · exact Or.inl h1
        · exact Or.inr ⟨4 - (rem + 1), (filterSeenBy_sublist dedupKey seen _).subset h2⟩
      · exact hsome.elim (fun j hj => Or.inr ⟨j, hj⟩)
    · rw [if_neg hlt] at h
      exact Or.inl h

/-- Claim C3: every record written to a per-pair CSV has a non-empty
(trimmed) name, at least one of email/instagram non-empty as rendered, and
its country, language, city and type equal to the caller-supplied
canonical values, no matter what the model returned for those fields. -/
theorem claim_C3 (oracle : Nat → List RawContact) (need : Nat)
    (iso3 lang2 cityName ptype : String) :
    ∀ r ∈ collect oracle need iso3 lang2 cityName ptype,
      r.name ≠ "" ∧
      (pyOrEmpty r.email ≠ "" ∨ pyOrEmpty r.instagram ≠ "") ∧
      r.country = iso3 ∧ r.language = lang2 ∧ r.city = cityName ∧
      r.type = ptype := by
  intro r hr
  have hr1 : r ∈ collectRaw oracle need iso3 lang2 cityName ptype :=
    List.take_subset need _ hr
  rcases collectGo_mem oracle need iso3 lang2 cityName ptype 4 [] [] r hr1 with h | ⟨j, hj⟩
  · simp at h
  · have := enforceAndTrim_mem (oracle j) (need * 2) iso3 lang2 cityName ptype r hj
    exact ⟨this.1, this.2.1, this.2.2.2⟩

/-- Claim C3, witness: one fully-populated model row flows through the
loop and is written with the canonical constraint fields. -/
theorem claim_C3_witness :
    exampleContact.name ≠ "" ∧
    (pyOrEmpty exampleContact.email ≠ "" ∨
      pyOrEmpty exampleContact.instagram ≠ "") ∧
    exampleContact.country = "USA" ∧ exampleContact.language = "en" ∧
    exampleContact.city = "New York" ∧ exampleContact.type = "influencer" :=
  claim_C3 (fun _ => [exampleRaw]) 1 "USA" "en" "New York" "influencer"
    exampleContact (by decide)

/-- Claim C7 (amended): the dedup key is the lower-cased trimmed email when
that is non-empty, else "ig:" plus the lower-cased trimmed instagram; but a
record with neither channel gets the non-empty literal key "ig:", so the
standalone dedupe (and the merge pass) DOES retain the first such record —
only inside the generation pipeline is such a record impossible, because
`enforce_and_trim` drops it before `dedupe` runs. -/
theorem claim_C7_amended (r : Contact) (rows : List RawContact) (needed : Nat)
    (iso3 lang2 cityName ptype : String) :
    (trimStr (lowerStr (pyOrEmpty r.email)) ≠ "" →
      dedupKey r = trimStr (lowerStr (pyOrEmpty r.email))) ∧
    (trimStr (lowerStr (pyOrEmpty r.email)) = "" →
      dedupKey r = "ig:" ++ trimStr (lowerStr (pyOrEmpty r.instagram))) ∧
    (r.email = none ∧ r.instagram = none →
      dedupKey r = "ig:" ∧ dedupe [r] = [r]) ∧
    (∀ x ∈ enforceAndTrim rows needed iso3 lang2 cityName ptype,
      x.email ≠ none ∨ x.instagram ≠ none) := by
  refine ⟨?_, ?_, ?_, ?_⟩
  · intro h
    unfold dedupKey
    rw [if_pos h]
  · intro h
    unfold dedupKey
    rw [h, if_neg (by simp)]
  · rintro ⟨he, hi⟩
    have hk : dedupKey r = "ig:" := by
      unfold dedupKey
      rw [he, hi]
      simp [pyOrEmpty, lowerStr, trimStr, trimList]
    refine ⟨hk, ?_⟩
    unfold dedupe filterSeenBy
    rw [if_pos ⟨by rw [hk]; simp, by rw [hk]; simp⟩]
    simp [filterSeenBy]
  · intro x hx
    exact (enforceAndTrim_mem rows needed iso3 lang2 cityName ptype x hx).2.2.1

/-- Claim C7, witness: a record with neither channel gets key "ig:" and
survives a standalone `dedupe`. -/
theorem claim_C7_witness :
    dedupKey noChannelContact = "ig:" ∧
    dedupe [noChannelContact] = [noChannelContact] :=
  (claim_C7_amended noChannelContact [] 0 "" "" "" "").2.2.1 ⟨rfl, rfl⟩

/-- Claim C7, counterexample to the claim as stated: a record whose email
and instagram are both absent IS retained, both by `dedupe` and by the
merge pass — its key is the truthy string "ig:", not an ineligible one. -/
theorem claim_C7_counterexample :
    noChannelContact.email = none ∧ noChannelContact.instagram = none ∧
    dedupe [noChannelContact] = [noChannelContact] ∧
    noChannelRow.email = "" ∧ noChannelRow.instagram = "" ∧
    mergeGo [Except.ok [noChannelRow]] [] = [noChannelRow] := by decide

/-- Claim C8: a per-source-file read error only skips that file — the merge
of the remaining files is exactly the merge without the failing file — and
when zero contacts survive the corpus-wide dedup, no merged output file is
written. -/
theorem claim_C8 (files1 files2 files : List (Except Unit (List MRow)))
    (u : Unit) (seen : List String) :
    mergeGo (files1 ++ Except.error u :: files2) seen =
      mergeGo (files1 ++ files2) seen ∧
    (mergeGo files [] = [] → mergeCsvs files = none) := by
  constructor
  · induction files1 generalizing seen with
    | nil => simp [mergeGo]
    | cons f fs ih =>
      cases f with
      | error v => simp [mergeGo, ih]
      | ok rows => simp [mergeGo, ih]
  · intro h
    simp [mergeCsvs, h]

/-- Claim C8, witness: a merge whose only discoverable file is unreadable
skips it, survives with zero contacts, and writes nothing. -/
theorem claim_C8_witness :
    mergeGo ([] ++ Except.error () :: []) [] = mergeGo ([] ++ []) [] ∧
    mergeCsvs [Except.error ()] = none :=
  ⟨(claim_C8 [] [] [Except.error ()] () []).1,
   (claim_C8 [] [] [Except.error ()] () []).2 (by decide)⟩

/-- The filtered batch has pairwise-distinct keys, all non-empty and not
previously seen. -/
theorem filterSeenBy_keys (key : α → String) :
    ∀ (seen : List String) (rs : List α),
      ((filterSeenBy key seen rs).1.map key).Nodup ∧
      ∀ r ∈ (filterSeenBy key seen rs).1, key r ≠ "" ∧ key r ∉ seen := by
  intro seen rs
  induction rs generalizing seen with
  | nil => simp [filterSeenBy]
  | cons r rs ih =>
    simp only [filterSeenBy]
    split
    · next hc =>
      obtain ⟨hk, hks⟩ := hc
      have ihh := ih (key r :: seen)
      constructor
      · simp only [List.map_cons, List.nodup_cons]
        constructor
        · intro hmem
          rcases List.mem_map.mp hmem with ⟨x, hx, hxk⟩
          exact (ihh.2 x hx).2 (by rw [hxk]; exact List.mem_cons_self _ _)
        · exact ihh.1
      · intro x hx
        rcases List.mem_cons.mp hx with rfl | hx2
        · exact ⟨hk, hks⟩
        · have h := ihh.2 x hx2
          exact ⟨h.1, fun hmem => h.2 (List.mem_cons_of_mem _ hmem)⟩
    · exact ih seen

/-- After filtering, the seen set holds exactly the old keys plus every
non-empty key of the batch's input. -/
theorem filterSeenBy_seen_iff (key : α → String) :
    ∀ (seen : List String) (rs : List α) (k : String),
      k ∈ (filterSeenBy key seen rs).2 ↔
        k ∈ seen ∨ (k ≠ "" ∧ k ∈ rs.map key) := by
  intro seen rs
  induction rs generalizing seen with
  | nil => intro k; simp [filterSeenBy]
  | cons r rs ih =>
    intro k
    simp only [filterSeenBy, List.map_cons, List.mem_cons]
    split
    · next hc =>
      obtain ⟨hk, hks⟩ := hc
      rw [ih (key r :: seen) k]
      simp only [List.mem_cons]
      constructor
      · rintro ((rfl | h) | h)
        · exact Or.inr ⟨hk, Or.inl rfl⟩
        · exact Or.inl h
        · exact Or.inr ⟨h.1, Or.inr h.2⟩
      · rintro (h | ⟨hne, heq | h⟩)
        · exact Or.inl (Or.inr h)
        · exact Or.inl (Or.inl heq)
        · exact Or.inr ⟨hne, h⟩
    · next hc =>
      rw [ih seen k]
      have hc' := not_and_or.mp hc
      constructor
      · rintro (h | h)
        · exact Or.inl h
        · exact Or.inr ⟨h.1, Or.inr h.2⟩
      · rintro (h | ⟨hne, heq | h⟩)
        · exact Or.inl h
        · subst heq
          rcases hc' with h1 | h1
          · rw [not_not] at h1
            exact absurd h1 hne
          · rw [not_not] at h1
            exact Or.inl h1
        · exact Or.inr ⟨hne, h⟩

/-- A record whose key is non-empty, unseen, and not shared with anything
before it in the input survives the filter. -/
theorem filterSeenBy_first (key : α → String) (r : α) :
    ∀ (pre : List α) (seen : List String) (post : List α),
      key r ≠ "" → key r ∉ seen → (∀ p ∈ pre, key p ≠ key r) →
      r ∈ (filterSeenBy key seen (pre ++ r :: post)).1 := by
  intro pre
  induction pre with
  | nil =>
    intro seen post hk hks _
    simp only [List.nil_append, filterSeenBy]
    rw [if_pos ⟨hk, hks⟩]
    exact List.mem_cons_self _ _
  | cons q pre ih =>
    intro seen post hk hks hpre
    simp only [List.cons_append, filterSeenBy]
    split
    · next hc =>
      refine List.mem_cons_of_mem q (ih _ post hk ?_ (fun p hp => hpre p (List.mem_cons_of_mem _ hp)))
      intro hmem
      rcases List.mem_cons.mp hmem with heq | hmem2
      · exact hpre q (List.mem_cons_self _ _) heq.symm
      · exact hks hmem2
    · exact ih seen post hk hks (fun p hp => hpre p (List.mem_cons_of_mem _ hp))

/-- Every survivor of the filter is the first record of its key in the
input, its key being non-empty and previously unseen. -/
theorem filterSeenBy_mem_first (key : α → String) :
    ∀ (seen : List String) (rs : List α) (r : α),
      r ∈ (filterSeenBy key seen rs).1 →
      key r ≠ "" ∧ key r ∉ seen ∧
      ∃ pre post, rs = pre ++ r :: post ∧ ∀ p ∈ pre, key p ≠ key r := by
  intro seen rs
  induction rs generalizing seen with
  | nil => intro r h; simp [filterSeenBy] at h
  | cons x rs ih =>
    intro r h
    simp only [filterSeenBy] at h
    split at h
    · next hc =>
      obtain ⟨hk, hks⟩ := hc
      rcases List.mem_cons.mp h with rfl | h2
      · exact ⟨hk, hks, [], rs, rfl, by simp⟩
      · obtain ⟨hk2, hks2, pre, post, e, hpre⟩ := ih (key x :: seen) r h2
        have hxk : key x ≠ key r := fun he => hks2 (by rw [← he]; exact List.mem_cons_self _ _)
        refine ⟨hk2, fun hm => hks2 (List.mem_cons_of_mem _ hm), x :: pre, post,
          by rw [e, List.cons_append], ?_⟩
        intro p hp
        rcases List.mem_cons.mp hp with rfl | hp2
        · exact hxk
        · exact hpre p hp2
    · next hc =>
      obtain ⟨hk2, hks2, pre, post, e, hpre⟩ := ih seen r h
      have hxk : key x ≠ key r := by
        rcases not_and_or.mp hc with h1 | h1
        · rw [not_not] at h1
          exact fun he => hk2 (he.symm.trans h1)
        · rw [not_not] at h1
          exact fun he => hks2 (he ▸ h1)
      refine ⟨hk2, hks2, x :: pre, post, by rw [e, List.cons_append], ?_⟩
      intro p hp
      rcases List.mem_cons.mp hp with rfl | hp2
      · exact hxk
      · exact hpre p hp2

/-- The loop keeps the keys of its collection pairwise distinct: arriving
batches only carry fresh keys relative to the seen set, which covers every
key already collected. -/
theorem collectGo_nodup (oracle : Nat → List RawContact) (need : Nat)
    (iso3 lang2 cityName ptype : String) :
    ∀ (rem : Nat) (coll : List Contact) (seen : List String),
      (coll.map dedupKey).Nodup →
      (∀ r ∈ coll, dedupKey r ∈ seen) →
      (((collectGo oracle need iso3 lang2 cityName ptype rem coll seen).1.map
        dedupKey).Nodup) := by
  intro rem
  induction rem with
  | zero => intro coll seen h1 _; exact h1
  | succ rem ih =>
    intro coll seen h1 h2
    rw [collectGo]
    by_cases hlt : coll.length < need
    · rw [if_pos hlt]
      have hkeys := filterSeenBy_keys dedupKey seen
        (attemptRows oracle need iso3 lang2 cityName ptype (4 - (rem + 1)))
      refine ih _ _ ?_ ?_
      · rw [List.map_append]
        refine List.Nodup.append h1 hkeys.1 ?_
        intro k hk1 hk2
        rcases List.mem_map.mp hk1 with ⟨a, ha, rfl⟩
        rcases List.mem_map.mp hk2 with ⟨b, hb, hbk⟩
        exact (hkeys.2 b hb).2 (hbk ▸ h2 a ha)
      · intro r hr
        rw [filterSeenBy_seen_iff]
        rcases List.mem_append.mp hr with h | h
        · exact Or.inl (h2 r h)
        · have hb := filterSeenBy_mem_first dedupKey seen _ r h
          obtain ⟨hk, -, pre, post, e, -⟩ := hb
          exact Or.inr ⟨hk, by rw [e]; simp⟩
    · rw [if_neg hlt]
      exact h1

/-- Being a first-key occurrence is stable under extending the list on the
right. -/
theorem firstWith_append_right (l ext : List Contact) (r : Contact)
    (h : firstWith l r) : firstWith (l ++ ext) r := by
  obtain ⟨pre, post, rfl, hpre⟩ := h
  exact ⟨pre, post ++ ext, by simp, hpre⟩

/-- The loop's result extends the collection only with a subsequence of the
batches of the attempts it actually ran. -/
theorem collectGo_stream (oracle : Nat → List RawContact) (need : Nat)
    (iso3 lang2 cityName ptype : String) :
    ∀ (rem : Nat) (coll : List Contact) (seen : List String), rem ≤ 4 →
      4 - rem ≤ (collectGo oracle need iso3 lang2 cityName ptype rem coll seen).2 ∧
      ∃ tail, (collectGo oracle need iso3 lang2 cityName ptype rem coll seen).1 =
          coll ++ tail ∧
        tail.Sublist (((List.range' (4 - rem)
            ((collectGo oracle need iso3 lang2 cityName ptype rem coll seen).2 - (4 - rem))).map
          (attemptRows oracle need iso3 lang2 cityName ptype)).flatten) := by
  intro rem
  induction rem with
  | zero =>
    intro coll seen _
    refine ⟨by simp [collectGo], [], by simp [collectGo], ?_⟩
    simp [collectGo]
  | succ rem ih =>
    intro coll seen h4
    by_cases hlt : coll.length < need
    · have hstep : collectGo oracle need iso3 lang2 cityName ptype (rem + 1) coll seen =
          collectGo oracle need iso3 lang2 cityName ptype rem
            (coll ++ (filterSeenBy dedupKey seen
              (attemptRows oracle need iso3 lang2 cityName ptype (4 - (rem + 1)))).1)
            (filterSeenBy dedupKey seen
              (attemptRows oracle need iso3 lang2 cityName ptype (4 - (rem + 1)))).2 := by
        rw [collectGo, if_pos hlt]
      rw [hstep]
      obtain ⟨hle, tail, e, hsub⟩ := ih
        (coll ++ (filterSeenBy dedupKey seen
          (attemptRows oracle need iso3 lang2 cityName ptype (4 - (rem + 1)))).1)
        (filterSeenBy dedupKey seen
          (attemptRows oracle need iso3 lang2 cityName ptype (4 - (rem + 1)))).2
        (by omega)
      constructor
      · omega
      · refine ⟨(filterSeenBy dedupKey seen
          (attemptRows oracle need iso3 lang2 cityName ptype (4 - (rem + 1)))).1 ++ tail,
          by rw [e, List.append_assoc], ?_⟩
        have harith : (collectGo oracle need iso3 lang2 cityName ptype rem
            (coll ++ (filterSeenBy dedupKey seen
              (attemptRows oracle need iso3 lang2 cityName ptype (4 - (rem + 1)))).1)
            (filterSeenBy dedupKey seen
              (attemptRows oracle need iso3 lang2 cityName ptype (4 - (rem + 1)))).2).2
            - (4 - (rem + 1)) =
            ((collectGo oracle need iso3 lang2 cityName ptype rem
            (coll ++ (filterSeenBy dedupKey seen
              (attemptRows oracle need iso3 lang2 cityName ptype (4 - (rem + 1)))).1)
            (filterSeenBy dedupKey seen
              (attemptRows oracle need iso3 lang2 cityName ptype (4 - (rem + 1)))).2).2
            - (4 - rem)) + 1 := by omega
        rw [harith, List.range'_succ]
        have hidx : 4 - (rem + 1) + 1 = 4 - rem := by omega
        rw [hidx]
        simp only [List.map_cons, List.flatten_cons]
        exact List.Sublist.append (filterSeenBy_sublist dedupKey seen _) hsub
    · have hstep : collectGo oracle need iso3 lang2 cityName ptype (rem + 1) coll seen =
          (coll, 4 - (rem + 1)) := by
        rw [collectGo, if_neg hlt]
      rw [hstep]
      refine ⟨by omega, [], by simp, ?_⟩
      simp

/-- Across attempts, every record the loop keeps is the first occurrence of
its dedup key in the processed candidate stream: the seen set mirrors the
non-empty keys of the batches processed so far. -/
theorem collectGo_firstwins (oracle : Nat → List RawContact) (need : Nat)
    (iso3 lang2 cityName ptype : String) :
    ∀ (rem : Nat) (coll : List Contact) (seen : List String), rem ≤ 4 →
      (∀ k, k ∈ seen ↔ (k ≠ "" ∧
        k ∈ (streamOf oracle need iso3 lang2 cityName ptype (4 - rem)).map dedupKey)) →
      (∀ r ∈ coll, firstWith (streamOf oracle need iso3 lang2 cityName ptype (4 - rem)) r) →
      ∀ r ∈ (collectGo oracle need iso3 lang2 cityName ptype rem coll seen).1,
        firstWith (streamOf oracle need iso3 lang2 cityName ptype
          ((collectGo oracle need iso3 lang2 cityName ptype rem coll seen).2)) r := by
  intro rem
  induction rem with
  | zero =>
    intro coll seen _ _ hcoll r hr
    exact hcoll r hr
  | succ rem ih =>
    intro coll seen h4 hseen hcoll
    by_cases hlt : coll.length < need
    · have hstep : collectGo oracle need iso3 lang2 cityName ptype (rem + 1) coll seen =
          collectGo oracle need iso3 lang2 cityName ptype rem
            (coll ++ (filterSeenBy dedupKey seen
              (attemptRows oracle need iso3 lang2 cityName ptype (4 - (rem + 1)))).1)
            (filterSeenBy dedupKey seen
              (attemptRows oracle need iso3 lang2 cityName ptype (4 - (rem + 1)))).2 := by
        rw [collectGo, if_pos hlt]
      rw [hstep]
      have hsplit : streamOf oracle need iso3 lang2 cityName ptype (4 - rem) =
          streamOf oracle need iso3 lang2 cityName ptype (4 - (rem + 1)) ++
            attemptRows oracle need iso3 lang2 cityName ptype (4 - (rem + 1)) := by
        have h1 : 4 - rem = (4 - (rem + 1)) + 1 := by omega
        rw [h1]
        unfold streamOf
        rw [List.range_succ]
        simp
      refine ih _ _ (by omega) ?_ ?_
      · intro k
        rw [filterSeenBy_seen_iff dedupKey seen _ k, hseen k, hsplit]
        simp only [List.map_append, List.mem_append]
        constructor
        · rintro (⟨hne, h⟩ | ⟨hne, h⟩)
          · exact ⟨hne, Or.inl h⟩
          · exact ⟨hne, Or.inr h⟩
        · rintro ⟨hne, h | h⟩
          · exact Or.inl ⟨hne, h⟩
          · exact Or.inr ⟨hne, h⟩
      · intro r hr
        rcases List.mem_append.mp hr with h | h
        · rw [hsplit]
          exact firstWith_append_right _ _ r (hcoll r h)
        · obtain ⟨hk, hks, pre2, post2, e2, hpre2⟩ :=
            filterSeenBy_mem_first dedupKey seen _ r h
          rw [hsplit, e2]
          refine ⟨streamOf oracle need iso3 lang2 cityName ptype (4 - (rem + 1)) ++ pre2,
            post2, by simp [List.append_assoc], ?_⟩
          intro p hp
          rcases List.mem_append.mp hp with hp1 | hp2
          · intro heq
            have hmem : dedupKey r ∈
                (streamOf oracle need iso3 lang2 cityName ptype (4 - (rem + 1))).map dedupKey :=
              List.mem_map.mpr ⟨p, hp1, heq⟩
            exact hks ((hseen (dedupKey r)).mpr ⟨hk, hmem⟩)
          · exact hpre2 p hp2
    · have hstep : collectGo oracle need iso3 lang2 cityName ptype (rem + 1) coll seen =
          (coll, 4 - (rem + 1)) := by
        rw [collectGo, if_neg hlt]
      rw [hstep]
      intro r hr
      exact hcoll r hr

/-- Claim C4: deduplication keeps only the first-encountered record of each
key and preserves input order, both inside one normalized batch (`dedupe`:
a subsequence of its input, pairwise-distinct keys, and the first eligible
record of a key always survives) and across the attempts of one
accumulation run (the loop's output has pairwise-distinct keys, is a
subsequence of the processed candidate stream, and each survivor is the
first occurrence of its key in that stream). -/
theorem claim_C4 (rows pre post : List Contact) (r : Contact)
    (oracle : Nat → List RawContact) (need : Nat)
    (iso3 lang2 cityName ptype : String) :
    (dedupe rows).Sublist rows ∧
    ((dedupe rows).map dedupKey).Nodup ∧
    (rows = pre ++ r :: post → dedupKey r ≠ "" →
      (∀ p ∈ pre, dedupKey p ≠ dedupKey r) → r ∈ dedupe rows) ∧
    ((collect oracle need iso3 lang2 cityName ptype).map dedupKey).Nodup ∧
    (collect oracle need iso3 lang2 cityName ptype).Sublist
      (processedStream oracle need iso3 lang2 cityName ptype) ∧
    (∀ x ∈ collect oracle need iso3 lang2 cityName ptype,
      firstWith (processedStream oracle need iso3 lang2 cityName ptype) x) := by
  refine ⟨filterSeenBy_sublist dedupKey [] rows,
    (filterSeenBy_keys dedupKey [] rows).1, ?_, ?_, ?_, ?_⟩
  · intro he hk hpre
    rw [he]
    exact filterSeenBy_first dedupKey r pre [] post hk (by simp) hpre
  · have h := collectGo_nodup oracle need iso3 lang2 cityName ptype 4 [] []
      (by simp) (by simp)
    exact List.Nodup.sublist ((List.take_sublist need _).map dedupKey) h
  · obtain ⟨-, tail, e, hsub⟩ :=
      collectGo_stream oracle need iso3 lang2 cityName ptype 4 [] [] (le_refl 4)
    have e2 : collectRaw oracle need iso3 lang2 cityName ptype = tail := by
      unfold collectRaw
      rw [e]
      simp
    have hsub2 : (collectRaw oracle need iso3 lang2 cityName ptype).Sublist
        (processedStream oracle need iso3 lang2 cityName ptype) := by
      rw [e2]
      unfold processedStream streamOf attemptsUsed
      simpa [List.range_eq_range'] using hsub
    exact (List.take_sublist need _).trans hsub2
  · intro x hx
    have hx1 : x ∈ collectRaw oracle need iso3 lang2 cityName ptype :=
      List.take_subset need _ hx
    exact collectGo_firstwins oracle need iso3 lang2 cityName ptype 4 [] []
      (le_refl 4) (by intro k; simp [streamOf]) (by simp) x hx1

/-- Claim C4, witness: of two records sharing a case-insensitive email key,
only the first survives `dedupe`. -/
theorem claim_C4_witness :
    exampleContact ∈ dedupe [exampleContact, exampleContact2] :=
  (claim_C4 [exampleContact, exampleContact2] [] [exampleContact2]
    exampleContact (fun _ => []) 0 "" "" "" "").2.2.1 rfl (by decide) (by decide)
